import Mathlib

/-!
Shallow embedding of the snort TCP codec (src/codecs/ip/cd_tcp.cc):
the segment decoder `TcpCodec::decode`, the option walker
`DecodeTCPOptions`, the option validator `OptLenValidate`, the response
encoder `TcpCodec::encode`, and the checksum refresher `TcpCodec::update`.

Raw packet memory is a `List Nat` of bytes; every read goes through
`byteAt`, which truncates to a byte (models `uint8_t` loads).  Multi-byte
header fields are read in network byte order; the host is modelled as
big-endian, so `ntohs`/`ntohl`/`htons`/`htonl` are identities and struct
field reads coincide with the wire values.

The checksum kernel (`codecs/ip/checksum.h`) and the policy/DAQ queries
(`ScTcpChecksums`, `ScInlineMode`, `ScTcpChecksumDrops`,
`DAQ_GetInterfaceMode`, `sfvar_ip_in`, `PacketWasCooked`) are external to
the translation unit; their results enter the model as oracle fields of
`DecodeEnv` / `EncIn` / arguments of `update`.
-/

/-- Read one byte of packet memory (a `uint8_t` load; out-of-range reads
default to 0, which no claim relies on since all accesses are
bounds-checked by the code being modelled). -/
def byteAt (l : List Nat) (i : Nat) : Nat := l.getD i 0 % 256

/-- Big-endian (network order) 16-bit read. -/
def be16 (l : List Nat) (i : Nat) : Nat := byteAt l i * 256 + byteAt l (i + 1)

/-- Big-endian (network order) 32-bit read. -/
def be32 (l : List Nat) (i : Nat) : Nat :=
  ((byteAt l i * 256 + byteAt l (i + 1)) * 256 + byteAt l (i + 2)) * 256 + byteAt l (i + 3)

/-- TCP header field `th_flags` (byte 13). -/
def th_flags (raw : List Nat) : Nat := byteAt raw 13

/-- TCP header field `th_seq` (bytes 4..7, network order). -/
def th_seq (raw : List Nat) : Nat := be32 raw 4

/-- TCP header field `th_ack` (bytes 8..11, network order). -/
def th_ack (raw : List Nat) : Nat := be32 raw 8

/-- TCP header field `th_urp` (bytes 18..19, network order). -/
def th_urp (raw : List Nat) : Nat := be16 raw 18

/-- TCP header field `th_sum` (bytes 16..17, network order). -/
def th_sum (raw : List Nat) : Nat := be16 raw 16

/-- The source's `TCPHdr::hdr_len()`: the 4-bit data-offset nibble (high
nibble of byte 12, `th_offx2`) times 4. -/
def hdrLen (raw : List Nat) : Nat := byteAt raw 12 / 16 * 4

/-- Decoder events of the TCP codec (the rule catalogue of
`tcp_rules[]`). -/
inductive Ev where
  | DGRAM_LT_TCPHDR
  | INVALID_OFFSET
  | LARGE_OFFSET
  | TCPOPT_BADLEN
  | TCPOPT_TRUNCATED
  | TCPOPT_TTCP
  | TCPOPT_OBSOLETE
  | TCPOPT_EXPERIMENTAL
  | TCPOPT_WSCALE_INVALID
  | TCP_XMAS
  | TCP_NMAP_XMAS
  | TCP_BAD_URP
  | TCP_SYN_FIN
  | TCP_SYN_RST
  | TCP_MUST_ACK
  | TCP_NO_SYN_ACK_RST
  | TCP_SHAFT_SYNFLOOD
  | TCP_PORT_ZERO
  | DOS_NAPTHA
  | SYN_TO_MULTICAST
deriving DecidableEq

/-- A decoded option record (`Options` slot): kind byte, payload length
(`*len_ptr - 2`, 0 for NOP/EOL), and payload position within the option
region (`option_ptr + 2`) or `none`. -/
structure TcpOption where
  code : Nat
  len : Nat
  data : Option Nat
deriving DecidableEq

/-- Result of `OptLenValidate`: 0 with the written record fields and
`byte_skip`, or one of the negative error codes `tcp::OPT_BADLEN` /
`tcp::OPT_TRUNC`. -/
inductive OptRes where
  | ok (payloadLen : Nat) (dataIdx : Option Nat) (skip : Nat)
  | badLen
  | trunc
deriving DecidableEq

/-- Translation of `OptLenValidate` (cd_tcp.cc:788).  `pos` is
`option_ptr` and `endPos` is `end` as offsets into the option region;
`lenPtr` is `none` for a NULL `len_ptr` and otherwise carries the
dereferenced length byte `*len_ptr`. -/
def OptLenValidate (pos endPos : Nat) (lenPtr : Option Nat) (expected : Int) : OptRes :=
  match lenPtr with
  | none => OptRes.trunc
  | some l =>
    if l = 0 ∨ expected = 0 ∨ expected = 1 then
      OptRes.badLen
    else if 1 < expected then
      if endPos < pos + expected.toNat then OptRes.trunc
      else if (l : Int) ≠ expected then OptRes.badLen
      else OptRes.ok (l - 2) (if l = 2 then none else some (pos + 2)) l
    else
      if l < 2 then OptRes.badLen
      else if endPos < pos + l then OptRes.trunc
      else OptRes.ok (l - 2) (if l = 2 then none else some (pos + 2)) l

/-- The two negative validator verdicts. -/
inductive ErrK where
  | badLen
  | trunc
deriving DecidableEq

/-- Event emitted by the walker for a validator error
(`DECODE_TCPOPT_BADLEN` / `DECODE_TCPOPT_TRUNCATED`). -/
def errEv : ErrK → Ev
  | ErrK.badLen => Ev.TCPOPT_BADLEN
  | ErrK.trunc => Ev.TCPOPT_TRUNCATED

/-- Outcome of one iteration of the option-walk loop body: a cleanly
parsed record with its `byte_skip`, whether a WSCALE-invalid event fires,
whether EOL terminates the loop (`done`), and the semantic flags this
option contributes; or an error verdict. -/
inductive StepRes where
  | good (rec : TcpOption) (skip : Nat) (ws done exper obsol ttcp : Bool)
  | bad (k : ErrK)
deriving DecidableEq

/-- Modelled from the spec: the per-kind fixed lengths `TCPOLEN_*` from
`protocols/tcp.h` (the header is not part of the sources); values follow
the spec's option table in section 4.3 (MAXSEG 4, WSCALE 3, SACKOK 2,
ECHO/ECHOREPLY 6, TIMESTAMP 10, CC/CC_NEW/CC_ECHO 6, MD5SIG 18;
TRAILER_CSUM and the remaining kinds are variable length, -1). -/
def optExpected (kind : Nat) : Int :=
  if kind = 2 then 4
  else if kind = 4 then 2
  else if kind = 6 ∨ kind = 7 then 6
  else if kind = 19 then 18
  else if kind = 11 ∨ kind = 12 ∨ kind = 13 then 6
  else if kind = 8 then 10
  else (-1)

/-- Modelled from the spec: the kinds flagged obsolete (the
`obsolete_option_found = 1` case labels: ECHO 6, ECHOREPLY 7, MD5SIG 19,
SKEETER 16, BUBBA 17, UNASSIGNED — IANA kind 25). -/
def optObsol (kind : Nat) : Bool :=
  kind = 6 || kind = 7 || kind = 19 || kind = 16 || kind = 17 || kind = 25

/-- The kinds flagged experimental: TRAILER_CSUM 18 and every kind with
no case label of its own (`default` together with
SCPS/SELNEGACK/RECORDBOUND/CORRUPTION/PARTIAL_PERM/PARTIAL_SVC/
ALTCSUM/SNAP). -/
def optExper (kind : Nat) : Bool :=
  !(kind = 0 || kind = 1 || kind = 2 || kind = 3 || kind = 4 || kind = 5 ||
    kind = 6 || kind = 7 || kind = 8 || kind = 11 || kind = 12 || kind = 13 ||
    kind = 16 || kind = 17 || kind = 19 || kind = 25 || kind = 29)

/-- CC_ECHO (kind 13) flags T/TCP. -/
def optTtcp (kind : Nat) : Bool := kind = 13

/-- Package a validator verdict as a loop-body outcome (the common
`code = OptLenValidate(...)` pattern of the switch cases). -/
def mkStep (kind : Nat) (r : OptRes) (e o t : Bool) : StepRes :=
  match r with
  | OptRes.ok pl pd sk => StepRes.good ⟨kind, pl, pd⟩ sk false false e o t
  | OptRes.badLen => StepRes.bad ErrK.badLen
  | OptRes.trunc => StepRes.bad ErrK.trunc

/-- The SACK case: a successful validation whose data pointer is NULL is
demoted to `OPT_BADLEN`. -/
def sackStep (kind : Nat) (r : OptRes) : StepRes :=
  match r with
  | OptRes.ok pl pd sk =>
      if pd = none then StepRes.bad ErrK.badLen
      else StepRes.good ⟨kind, pl, pd⟩ sk false false false false false
  | OptRes.badLen => StepRes.bad ErrK.badLen
  | OptRes.trunc => StepRes.bad ErrK.trunc

/-- The WSCALE case: on success, `data[0] > 14` (the byte at
`option_ptr + 2`) raises `DECODE_TCPOPT_WSCALE_INVALID`. -/
def wscaleStep (bytes : List Nat) (pos kind : Nat) (r : OptRes) : StepRes :=
  match r with
  | OptRes.ok pl pd sk =>
      StepRes.good ⟨kind, pl, pd⟩ sk (decide (14 < byteAt bytes (pos + 2))) false false false false
  | OptRes.badLen => StepRes.bad ErrK.badLen
  | OptRes.trunc => StepRes.bad ErrK.trunc

/-- The AUTH pre-check `(len_ptr != NULL) && (*len_ptr < 4)`. -/
def lenPtrLt4 : Option Nat → Bool
  | some l => decide (l < 4)
  | none => false

/-- One iteration of the `DecodeTCPOptions` loop body at offset `pos`:
reads the kind byte, forms `len_ptr` (NULL unless `option_ptr + 1 <
end_ptr`), and dispatches exactly as the switch in cd_tcp.cc:454. -/
def stepOpt (bytes : List Nat) (endPos pos : Nat) : StepRes :=
  let kind := byteAt bytes pos
  let lenPtr : Option Nat := if pos + 1 < endPos then some (byteAt bytes (pos + 1)) else none
  if kind = 0 then
    StepRes.good ⟨kind, 0, none⟩ 1 false true false false false
  else if kind = 1 then
    StepRes.good ⟨kind, 0, none⟩ 1 false false false false false
  else if kind = 29 then
    if lenPtrLt4 lenPtr then StepRes.bad ErrK.badLen
    else mkStep kind (OptLenValidate pos endPos lenPtr (-1)) false false false
  else if kind = 5 then
    sackStep kind (OptLenValidate pos endPos lenPtr (-1))
  else if kind = 3 then
    wscaleStep bytes pos kind (OptLenValidate pos endPos lenPtr 3)
  else
    mkStep kind (OptLenValidate pos endPos lenPtr (optExpected kind))
      (optExper kind) (optObsol kind) (optTtcp kind)

/-- Aggregate result of the option-walk loop: the cleanly parsed records,
the events emitted inside the loop (WSCALE-invalid, and the final
bad-length/truncation event), the error verdict if the loop stopped on
one, the accumulated semantic flags, the number of loop iterations, the
`(position, byte_skip)` trace of the successful iterations, and the final
cursor offset. -/
structure WalkRes where
  opts : List TcpOption
  evs : List Ev
  err : Option ErrK
  exper : Bool
  obsol : Bool
  ttcp : Bool
  iters : Nat
  steps : List (Nat × Nat)
  finalPos : Nat
deriving DecidableEq

/-- The walk loop of `DecodeTCPOptions` (cd_tcp.cc:441).  `rem` is the
number of free option slots, i.e. `TCP_OPTLENMAX - opt_count`; the C
guard `opt_count < TCP_OPTLENMAX` is `0 < rem`.  The semantic flags are
OR-accumulated on the way out, which agrees with the source's
left-to-right accumulation. -/
def walkAux (bytes : List Nat) (endPos pos : Nat) : Nat → WalkRes
  | 0 => ⟨[], [], none, false, false, false, 0, [], pos⟩
  | rem + 1 =>
    if pos < endPos then
      match stepOpt bytes endPos pos with
      | StepRes.bad k => ⟨[], [errEv k], some k, false, false, false, 1, [], pos⟩
      | StepRes.good rec skip ws dn e o t =>
        if dn then
          ⟨[rec], (if ws then [Ev.TCPOPT_WSCALE_INVALID] else []), none, e, o, t, 1,
            [(pos, skip)], pos + skip⟩
        else
          let w := walkAux bytes endPos (pos + skip) rem
          ⟨rec :: w.opts, (if ws then [Ev.TCPOPT_WSCALE_INVALID] else []) ++ w.evs, w.err,
            e || w.exper, o || w.obsol, t || w.ttcp, w.iters + 1, (pos, skip) :: w.steps,
            w.finalPos⟩
    else ⟨[], [], none, false, false, false, 0, [], pos⟩

/-- The post-loop priority events of `DecodeTCPOptions`
(EXPERIMENTAL else OBSOLETE else TTCP), emitted only on clean
completion. -/
def doneEvents (e o t : Bool) : List Ev :=
  if e then [Ev.TCPOPT_EXPERIMENTAL]
  else if o then [Ev.TCPOPT_OBSOLETE]
  else if t then [Ev.TCPOPT_TTCP]
  else []

/-- Per-packet decoded state: the fields of `Packet` the TCP codec
touches.  `tcph` holds the borrowed raw header bytes or `none`;
`unsureEncap` is the input-only `DECODE__UNSURE_ENCAP` decode flag;
`errCksumTcp` is the `PKT_ERR_CKSUM_TCP` error bit; `protoBitTcp` the
`PROTO_BIT__TCP` protocol bit. -/
structure Packet where
  tcph : Option (List Nat)
  sp : Nat
  dp : Nat
  tcp_options : List TcpOption
  tcp_option_count : Nat
  dataOff : Nat
  dsize : Nat
  protoBitTcp : Bool
  errCksumTcp : Bool
  unsureEncap : Bool
deriving DecidableEq

/-- Translation of `DecodeTCPOptions` (cd_tcp.cc:402): the defensive
branch for `o_len > TCP_OPTLENMAX` nulls `p->tcph` and emits nothing;
otherwise the loop runs with all 40 slots free and the clean-completion
events are appended after the loop's own events. -/
def DecodeTCPOptions (bytes : List Nat) (o_len : Nat) (p : Packet) : Packet × List Ev :=
  if 40 < o_len then ({ p with tcph := none }, [])
  else
    let w := walkAux bytes o_len 0 40
    ({ p with tcp_options := w.opts, tcp_option_count := w.opts.length },
      w.evs ++ (if w.err = none then doneEvents w.exper w.obsol w.ttcp else []))

/-- Modelled from the spec: results of the external policy and IP-layer
queries the decoder makes (section 6 of the spec).  `csum` is the value
returned by the external checksum kernel `checksum::tcp_cksum` for this
segment (section 4.1: a pure function; only its zero test steers the
decoder), `ipId` is `p->ip_api.id(p)`, and `dstInMulticast` is
`sfvar_ip_in(SynToMulticastDstIp, dst)`. -/
structure DecodeEnv where
  tcpChecksums : Bool
  inlineMode : Bool
  tcpChecksumDrops : Bool
  csum : Nat
  ipId : Nat
  dstInMulticast : Bool
deriving DecidableEq

/-- Result of one `decode` call.  `events` lists the emitted decoder
events in order, each paired with whether `p->tcph` was non-null at the
moment of emission.  `activeDrop` records an `Active_DropPacket()`
request; `optRegionLen` records the `o_len` passed to
`DecodeTCPOptions`, if the walker was invoked. -/
structure DecodeResult where
  ok : Bool
  p : Packet
  lyrLen : Nat
  events : List (Ev × Bool)
  activeDrop : Bool
  optRegionLen : Option Nat
deriving DecidableEq

/-- The flag-combination classification of `TcpCodec::decode`
(cd_tcp.cc:260-308): XMAS/NMAP-XMAS, the SYN family including NAPTHA and
SYN-to-multicast, NO_SYN_ACK_RST, and MUST_ACK.  Flag masks: FIN 1,
SYN 2, RST 4, PUSH 8, ACK 16, URG 32. -/
def flagClassEvents (fl seqv : Nat) (env : DecodeEnv) (tset : Bool) : List (Ev × Bool) :=
  (if fl &&& 41 = 41 then
    [((if fl &&& 22 = 22 then Ev.TCP_XMAS else Ev.TCP_NMAP_XMAS), tset)]
  else []) ++
  (if fl &&& 2 = 2 then
    (if fl = 2 ∧ seqv = 6060842 ∧ env.ipId = 413 then [(Ev.DOS_NAPTHA, tset)] else []) ++
    (if env.dstInMulticast then [(Ev.SYN_TO_MULTICAST, tset)] else []) ++
    (if fl &&& 4 ≠ 0 then [(Ev.TCP_SYN_RST, tset)] else []) ++
    (if fl &&& 1 ≠ 0 then [(Ev.TCP_SYN_FIN, tset)] else [])
  else
    (if fl &&& 20 = 0 then [(Ev.TCP_NO_SYN_ACK_RST, tset)] else [])) ++
  (if fl &&& 41 ≠ 0 ∧ fl &&& 16 = 0 then [(Ev.TCP_MUST_ACK, tset)] else [])

/-- Tail of `TcpCodec::decode` after the header guards and checksum
verification (cd_tcp.cc:260-349): flag classification, port extraction,
option walk, payload pointer and size, urgent-pointer check, protocol
bit, and `TCPMiscTests`. -/
def decodeRest (raw : List Nat) (env : DecodeEnv) (p : Packet) (ll : Nat) (drop : Bool) :
    DecodeResult :=
  let evs1 := flagClassEvents (th_flags raw) (th_seq raw) env p.tcph.isSome
  let p2 : Packet := { p with sp := be16 raw 0, dp := be16 raw 2 }
  let optLen := hdrLen raw - 20
  let pw := if 0 < optLen then DecodeTCPOptions (raw.drop 20) optLen p2
            else ({ p2 with tcp_option_count := 0 }, ([] : List Ev))
  let p3 := pw.1
  let evs2 := pw.2.map fun ev => (ev, p3.tcph.isSome)
  let ds := if ll < raw.length then (raw.length - ll) % 65536 else 0
  let p4 : Packet := { p3 with dataOff := ll, dsize := ds }
  let evs3 := if th_flags raw &&& 32 ≠ 0 ∧ (ds = 0 ∨ ds < th_urp raw) then
      [(Ev.TCP_BAD_URP, p4.tcph.isSome)]
    else []
  let p5 : Packet := { p4 with protoBitTcp := true }
  let evs4 :=
    (if th_flags raw &&& 63 = 2 ∧ th_seq raw = 674711609 then
      [(Ev.TCP_SHAFT_SYNFLOOD, p5.tcph.isSome)]
    else []) ++
    (if p5.sp = 0 ∨ p5.dp = 0 then [(Ev.TCP_PORT_ZERO, p5.tcph.isSome)] else [])
  { ok := true, p := p5, lyrLen := ll, events := evs1 ++ evs2 ++ evs3 ++ evs4,
    activeDrop := drop, optRegionLen := if 0 < optLen then some optLen else none }

/-- Translation of `TcpCodec::decode` (cd_tcp.cc:147): the three header
guards, the checksum verification with its unsure-encap silent failure
and its inline-drop request, then `decodeRest`. -/
def decode (raw : List Nat) (env : DecodeEnv) (p0 : Packet) : DecodeResult :=
  if raw.length < 20 then
    { ok := false, p := { p0 with tcph := none }, lyrLen := 0,
      events := [(Ev.DGRAM_LT_TCPHDR, p0.tcph.isSome)], activeDrop := false,
      optRegionLen := none }
  else
    let p1 : Packet := { p0 with tcph := some raw }
    let ll := hdrLen raw
    if ll < 20 then
      { ok := false, p := { p1 with tcph := none }, lyrLen := ll,
        events := [(Ev.INVALID_OFFSET, p1.tcph.isSome)], activeDrop := false,
        optRegionLen := none }
    else if raw.length < ll then
      { ok := false, p := { p1 with tcph := none }, lyrLen := ll,
        events := [(Ev.LARGE_OFFSET, p1.tcph.isSome)], activeDrop := false,
        optRegionLen := none }
    else if env.tcpChecksums then
      if env.csum ≠ 0 then
        if p1.unsureEncap then
          { ok := false, p := { p1 with tcph := none }, lyrLen := ll, events := [],
            activeDrop := false, optRegionLen := none }
        else
          decodeRest raw env { p1 with errCksumTcp := true } ll
            (env.inlineMode && env.tcpChecksumDrops)
      else decodeRest raw env p1 ll false
    else decodeRest raw env p1 ll false

/-- The `EncodeType` values the TCP encoder distinguishes. -/
inductive EncType where
  | rst
  | fin
  | push
deriving DecidableEq

/-- Inputs of `TcpCodec::encode`: the encode state (type, direction flag,
optional SEQ delta `ENC_FLAG_SEQ`/`ENC_FLAG_VAL`, optional payload) plus
the source packet's `dsize`, the DAQ interface mode, the remaining output
buffer room (the external `update_buffer` fails on overflow), and the
external checksum kernel's result for the synthesised segment. -/
structure EncIn where
  etype : EncType
  fwd : Bool
  seqFlag : Bool
  seqVal : Nat
  hasPay : Bool
  payLen : Nat
  dsize : Nat
  daqInline : Bool
  room : Nat
  csumOracle : Nat
deriving DecidableEq

/-- The synthesised response header written by the encoder. -/
structure OutHdr where
  sport : Nat
  dport : Nat
  seq : Nat
  ack : Nat
  off : Nat
  flags : Nat
  win : Nat
  urp : Nat
  sum : Nat
deriving DecidableEq

/-- `ctl = (hi->th_flags & TH_SYN) ? 1 : 0`. -/
def ctlOf (rawIn : List Nat) : Nat := if th_flags rawIn &&& 2 ≠ 0 then 1 else 0

/-- The header-field computation of `TcpCodec::encode` (cd_tcp.cc:646):
`ctl`, the direction-dependent ports and seq/ack, the optional
`ENC_FLAG_SEQ` delta, offset 5, and the type-dependent flags and window.
Sequence/acknowledgement arithmetic is 32-bit (`htonl(ntohl(x)+...)`),
hence the reductions modulo 2^32. -/
def encodeHdr (enc : EncIn) (rawIn : List Nat) : OutHdr :=
  let attach := enc.etype = EncType.fin ∨ enc.etype = EncType.push
  let ctl := ctlOf rawIn
  let seqF := if enc.fwd then
      (if enc.daqInline then th_seq rawIn
       else (th_seq rawIn + enc.dsize + ctl) % 4294967296)
    else th_ack rawIn
  let ackF := if enc.fwd then th_ack rawIn
    else (th_seq rawIn + enc.dsize + ctl) % 4294967296
  let spF := if enc.fwd then be16 rawIn 0 else be16 rawIn 2
  let dpF := if enc.fwd then be16 rawIn 2 else be16 rawIn 0
  let seq2 := if enc.seqFlag then (seqF + enc.seqVal) % 4294967296 else seqF
  let fl := if attach then (if enc.etype = EncType.push then 24 else 17) else 20
  let win := if attach ∧ enc.etype = EncType.push then 65535 else 0
  { sport := spF, dport := dpF, seq := seq2, ack := ackF, off := 5,
    flags := fl, win := win, urp := 0, sum := enc.csumOracle }

/-- Translation of `TcpCodec::encode` (cd_tcp.cc:627).  `rawIn` is the
original header bytes (`hi`); `none` models a refused `update_buffer`
grow (first for the optional payload, then for the original header's
length). -/
def encode (enc : EncIn) (rawIn : List Nat) : Option OutHdr :=
  let attach := enc.etype = EncType.fin ∨ enc.etype = EncType.push
  let needPay := attach ∧ enc.hasPay ∧ 0 < enc.payLen
  if needPay ∧ enc.room < enc.payLen then none
  else
    let room1 := if needPay then enc.room - enc.payLen else enc.room
    if room1 < hdrLen rawIn then none
    else some (encodeHdr enc rawIn)

/-- Result of `TcpCodec::update`: the advanced `*len`, whether the
checksum was recomputed, and the final `th_sum` value. -/
structure UpdateOut where
  len : Nat
  recomputed : Bool
  sum : Nat
deriving DecidableEq

/-- Translation of `TcpCodec::update` (cd_tcp.cc:733).  `h` is the
layer's header bytes; `cooked` is `PacketWasCooked(p)` and `rebuiltFrag`
the `PKT_REBUILT_FRAG` packet flag; `csumOracle` is the external checksum
kernel's result for the refreshed segment. -/
def update (h : List Nat) (dsize : Nat) (cooked rebuiltFrag : Bool) (len csumOracle : Nat) :
    UpdateOut :=
  let len2 := (len + hdrLen h + dsize) % 4294967296
  if ¬cooked ∨ rebuiltFrag then
    { len := len2, recomputed := true, sum := csumOracle }
  else
    { len := len2, recomputed := false, sum := th_sum h }

/-- Boolean chain check: the successful iterations' positions follow one
another by exactly their skips, from `start` to `final`. -/
def chainFromB (start : Nat) (steps : List (Nat × Nat)) (final : Nat) : Bool :=
  match steps with
  | [] => start == final
  | st :: rest => st.1 == start && chainFromB (start + st.2) rest final

/-- A blank packet context for concrete runs. -/
def pkt0 : Packet :=
  { tcph := none, sp := 0, dp := 0, tcp_options := [], tcp_option_count := 0,
    dataOff := 0, dsize := 0, protoBitTcp := false, errCksumTcp := false,
    unsureEncap := false }

/-- A policy environment with checksum verification off. -/
def env0 : DecodeEnv :=
  { tcpChecksums := false, inlineMode := false, tcpChecksumDrops := false,
    csum := 0, ipId := 0, dstInMulticast := false }

/-- Scenario S1 of the spec: minimal 20-byte SYN, ports 40000 to 80,
seq 1, offset 5. -/
def rawS1 : List Nat :=
  [156, 64, 0, 80, 0, 0, 0, 1, 0, 0, 0, 10, 80, 2, 32, 0, 0, 0, 0, 0]

/-- A policy environment with checksum verification on, a nonzero
checksum-kernel result, inline mode and the checksum-drop policy on. -/
def envCk7 : DecodeEnv :=
  { tcpChecksums := true, inlineMode := true, tcpChecksumDrops := true,
    csum := 7, ipId := 0, dstInMulticast := false }

/-- A packet context with the unsure-encap decode flag set. -/
def pktUE : Packet :=
  { tcph := none, sp := 0, dp := 0, tcp_options := [], tcp_option_count := 0,
    dataOff := 0, dsize := 0, protoBitTcp := false, errCksumTcp := false,
    unsureEncap := true }

/-- A policy environment whose IP layer reports IP id 413. -/
def envId413 : DecodeEnv :=
  { tcpChecksums := false, inlineMode := false, tcpChecksumDrops := false,
    csum := 0, ipId := 413, dstInMulticast := false }

/-- Scenario S3 of the spec: pure SYN, seq 6060842, 20-byte header. -/
def rawNap : List Nat :=
  [156, 64, 0, 80, 0, 92, 123, 42, 0, 0, 0, 0, 80, 2, 32, 0, 0, 0, 0, 0]

/-- A reverse RST encode state carrying a SEQ delta of 1
(`ENC_FLAG_SEQ` set, `ENC_FLAG_VAL` = 1). -/
def encRevSeq1 : EncIn :=
  { etype := EncType.rst, fwd := false, seqFlag := true, seqVal := 1,
    hasPay := false, payLen := 0, dsize := 0, daqInline := false,
    room := 60, csumOracle := 0 }

/-- A reverse RST encode state with no SEQ delta. -/
def encRev : EncIn :=
  { etype := EncType.rst, fwd := false, seqFlag := false, seqVal := 0,
    hasPay := false, payLen := 0, dsize := 0, daqInline := false,
    room := 60, csumOracle := 0 }

/-- A forward RST encode state (passive interface, no SEQ delta). -/
def encFwd : EncIn :=
  { etype := EncType.rst, fwd := true, seqFlag := false, seqVal := 0,
    hasPay := false, payLen := 0, dsize := 0, daqInline := false,
    room := 60, csumOracle := 0 }

example : (decode rawS1 env0 pkt0).ok = true := by decide
example : (decode rawS1 env0 pkt0).p.sp = 40000 := by decide
example : (decode rawS1 env0 pkt0).p.tcp_option_count = 0 := by decide
example : (decode rawS1 env0 pkt0).events = [] := by decide

/-! ## Validator lemmas -/

theorem validate_ok_lenPtr {pos endPos : Nat} {lp : Option Nat} {ex : Int}
    {pl : Nat} {pd : Option Nat} {sk : Nat}
    (h : OptLenValidate pos endPos lp ex = OptRes.ok pl pd sk) : lp = some sk := by
  cases lp with
  | none => simp [OptLenValidate] at h
  | some l =>
    simp only [OptLenValidate] at h
    split_ifs at h <;> simp_all

/-- Claim C3: behaviour of `OptLenValidate`.  The clauses follow the
claim's priority order (which matches the code's check order): a NULL
length pointer always yields TRUNC; with a length byte present,
`expected_len` 0 or 1 yields BAD_LEN; a fixed `expected_len ≥ 2` whose
stored length byte matches and whose option fits before `end` succeeds
with `skip = *len_ptr`, `payload_len = *len_ptr - 2` and payload at the
byte after the length byte, absent exactly when `*len_ptr = 2`; a
variable-length option yields BAD_LEN when `*len_ptr < 2` and TRUNC when
`option_ptr + *len_ptr` overruns `end`. -/
theorem tcp_C3_validator (pos endPos l : Nat) (expected : Int) :
    (OptLenValidate pos endPos none expected = OptRes.trunc) ∧
    (2 ≤ expected → (l : Int) = expected → pos + expected.toNat ≤ endPos →
      OptLenValidate pos endPos (some l) expected =
        OptRes.ok (l - 2) (if l = 2 then none else some (pos + 2)) l) ∧
    (expected = 0 ∨ expected = 1 →
      OptLenValidate pos endPos (some l) expected = OptRes.badLen) ∧
    (expected < 0 → l < 2 →
      OptLenValidate pos endPos (some l) expected = OptRes.badLen) ∧
    (expected < 0 → 2 ≤ l → endPos < pos + l →
      OptLenValidate pos endPos (some l) expected = OptRes.trunc) := by
  refine ⟨rfl, ?_, ?_, ?_, ?_⟩
  · intro h2 hl hfit
    simp only [OptLenValidate]
    split_ifs <;> first | rfl | (exfalso; omega)
  · intro h01
    simp only [OptLenValidate]
    split_ifs <;> first | rfl | (exfalso; omega)
  · intro hneg hl
    simp only [OptLenValidate]
    split_ifs <;> first | rfl | (exfalso; omega)
  · intro hneg hl hover
    simp only [OptLenValidate]
    split_ifs <;> first | rfl | (exfalso; omega)

theorem tcp_C3_validator_w :
    OptLenValidate 0 4 (some 4) 4 = OptRes.ok 2 (some 2) 4 ∧
    OptLenValidate 0 1 none 4 = OptRes.trunc ∧
    OptLenValidate 0 4 (some 3) 0 = OptRes.badLen ∧
    OptLenValidate 0 4 (some 1) (-1) = OptRes.badLen ∧
    OptLenValidate 0 4 (some 5) (-1) = OptRes.trunc := by
  refine ⟨?_, (tcp_C3_validator 0 1 0 4).1, ?_, ?_, ?_⟩
  · simpa using (tcp_C3_validator 0 4 4 4).2.1 (by decide) (by decide) (by decide)
  · exact (tcp_C3_validator 0 4 3 0).2.2.1 (Or.inl rfl)
  · exact (tcp_C3_validator 0 4 1 (-1)).2.2.2.1 (by decide) (by decide)
  · exact (tcp_C3_validator 0 4 5 (-1)).2.2.2.2 (by decide) (by decide) (by decide)

/-! ## Update (C7) -/

/-- Counterexample to claim C7 as stated: on a cooked, non-rebuilt packet
the recomputation is skipped, yet `*len` is still advanced by header
length plus dsize (the `*len += ...` precedes the cooked test in the
source), so `*len` does not stay at 0. -/
theorem tcp_C7_update_cex :
    (update [156, 64, 0, 80, 0, 0, 0, 1, 0, 0, 0, 10, 80, 2, 32, 0, 0, 0, 0, 0]
        5 true false 0 0).recomputed = false ∧
    (update [156, 64, 0, 80, 0, 0, 0, 1, 0, 0, 0, 10, 80, 2, 32, 0, 0, 0, 0, 0]
        5 true false 0 0).len = 25 ∧
    ¬ (update [156, 64, 0, 80, 0, 0, 0, 1, 0, 0, 0, 10, 80, 2, 32, 0, 0, 0, 0, 0]
        5 true false 0 0).len = 0 := by
  decide

/-- Claim C7, amended: `update` skips the checksum recomputation exactly
when the packet was cooked and is not a rebuilt fragment, and it advances
the 32-bit `*len` by the header length plus `dsize` (modulo 2^32) on
every call — including the calls in which recomputation is skipped. -/
theorem tcp_C7_update_amended (h : List Nat) (dsize : Nat) (cooked rebuiltFrag : Bool)
    (len csumOracle : Nat) :
    (update h dsize cooked rebuiltFrag len csumOracle).len =
      (len + hdrLen h + dsize) % 4294967296 ∧
    ((update h dsize cooked rebuiltFrag len csumOracle).recomputed = false ↔
      (cooked = true ∧ rebuiltFrag = false)) := by
  simp only [update]
  split_ifs with hc
  · refine ⟨rfl, ?_⟩
    simp only [show (true = false) = False by simp, false_iff]
    rcases hc with hc | hc
    · intro ⟨h1, _⟩; exact hc (by simp [h1])
    · intro ⟨_, h2⟩; simp [hc] at h2
  · refine ⟨rfl, ?_⟩
    constructor
    · intro _
      push_neg at hc
      exact ⟨by simpa using hc.1, by simpa using hc.2⟩
    · intro _; rfl

/-! ## Walker loop equations -/

theorem walkAux_zero (bytes : List Nat) (endPos pos : Nat) :
    walkAux bytes endPos pos 0 = ⟨[], [], none, false, false, false, 0, [], pos⟩ := rfl

theorem walkAux_stop (bytes : List Nat) (endPos pos rem : Nat) (hpe : ¬ pos < endPos) :
    walkAux bytes endPos pos (rem + 1) = ⟨[], [], none, false, false, false, 0, [], pos⟩ := by
  simp [walkAux, hpe]

theorem walkAux_bad (bytes : List Nat) (endPos pos rem : Nat) (k : ErrK)
    (hpe : pos < endPos) (hs : stepOpt bytes endPos pos = StepRes.bad k) :
    walkAux bytes endPos pos (rem + 1) =
      ⟨[], [errEv k], some k, false, false, false, 1, [], pos⟩ := by
  simp [walkAux, hpe, hs]

theorem walkAux_done (bytes : List Nat) (endPos pos rem : Nat) (rec : TcpOption)
    (skip : Nat) (ws e o t : Bool) (hpe : pos < endPos)
    (hs : stepOpt bytes endPos pos = StepRes.good rec skip ws true e o t) :
    walkAux bytes endPos pos (rem + 1) =
      ⟨[rec], (if ws then [Ev.TCPOPT_WSCALE_INVALID] else []), none, e, o, t, 1,
        [(pos, skip)], pos + skip⟩ := by
  simp [walkAux, hpe, hs]

theorem walkAux_cons (bytes : List Nat) (endPos pos rem : Nat) (rec : TcpOption)
    (skip : Nat) (ws e o t : Bool) (hpe : pos < endPos)
    (hs : stepOpt bytes endPos pos = StepRes.good rec skip ws false e o t) :
    walkAux bytes endPos pos (rem + 1) =
      ⟨rec :: (walkAux bytes endPos (pos + skip) rem).opts,
        (if ws then [Ev.TCPOPT_WSCALE_INVALID] else []) ++
          (walkAux bytes endPos (pos + skip) rem).evs,
        (walkAux bytes endPos (pos + skip) rem).err,
        e || (walkAux bytes endPos (pos + skip) rem).exper,
        o || (walkAux bytes endPos (pos + skip) rem).obsol,
        t || (walkAux bytes endPos (pos + skip) rem).ttcp,
        (walkAux bytes endPos (pos + skip) rem).iters + 1,
        (pos, skip) :: (walkAux bytes endPos (pos + skip) rem).steps,
        (walkAux bytes endPos (pos + skip) rem).finalPos⟩ := by
  simp [walkAux, hpe, hs]

/-! ## Walker loop invariants -/

theorem walk_opts_len (bytes : List Nat) (endPos : Nat) :
    ∀ rem pos, (walkAux bytes endPos pos rem).opts.length =
      (walkAux bytes endPos pos rem).steps.length := by
  intro rem
  induction rem with
  | zero => intro pos; rw [walkAux_zero]; rfl
  | succ rem ih =>
    intro pos
    by_cases hpe : pos < endPos
    · cases hs : stepOpt bytes endPos pos with
      | bad k => rw [walkAux_bad bytes endPos pos rem k hpe hs]; rfl
      | good rec skip ws dn e o t =>
        cases dn with
        | true => rw [walkAux_done bytes endPos pos rem rec skip ws e o t hpe hs]; rfl
        | false =>
          rw [walkAux_cons bytes endPos pos rem rec skip ws e o t hpe hs]
          simpa using ih (pos + skip)
    · rw [walkAux_stop bytes endPos pos rem hpe]; rfl

theorem walk_steps_le (bytes : List Nat) (endPos : Nat) :
    ∀ rem pos, (walkAux bytes endPos pos rem).steps.length ≤ rem := by
  intro rem
  induction rem with
  | zero => intro pos; rw [walkAux_zero]; exact Nat.le_refl 0
  | succ rem ih =>
    intro pos
    by_cases hpe : pos < endPos
    · cases hs : stepOpt bytes endPos pos with
      | bad k => rw [walkAux_bad bytes endPos pos rem k hpe hs]; simp
      | good rec skip ws dn e o t =>
        cases dn with
        | true => rw [walkAux_done bytes endPos pos rem rec skip ws e o t hpe hs]; simp
        | false =>
          rw [walkAux_cons bytes endPos pos rem rec skip ws e o t hpe hs]
          have := ih (pos + skip)
          simp only [List.length_cons]
          omega
    · rw [walkAux_stop bytes endPos pos rem hpe]; simp

theorem walk_iters (bytes : List Nat) (endPos : Nat) :
    ∀ rem pos, (walkAux bytes endPos pos rem).iters =
      (walkAux bytes endPos pos rem).steps.length +
        (if (walkAux bytes endPos pos rem).err.isSome then 1 else 0) := by
  intro rem
  induction rem with
  | zero => intro pos; rw [walkAux_zero]; simp
  | succ rem ih =>
    intro pos
    by_cases hpe : pos < endPos
    · cases hs : stepOpt bytes endPos pos with
      | bad k => rw [walkAux_bad bytes endPos pos rem k hpe hs]; simp
      | good rec skip ws dn e o t =>
        cases dn with
        | true => rw [walkAux_done bytes endPos pos rem rec skip ws e o t hpe hs]; simp
        | false =>
          rw [walkAux_cons bytes endPos pos rem rec skip ws e o t hpe hs]
          have := ih (pos + skip)
          simp only [List.length_cons]
          omega
    · rw [walkAux_stop bytes endPos pos rem hpe]; simp

theorem walk_err_lt (bytes : List Nat) (endPos : Nat) :
    ∀ rem pos, (walkAux bytes endPos pos rem).err.isSome = true →
      (walkAux bytes endPos pos rem).steps.length < rem ∧
      (walkAux bytes endPos pos rem).finalPos < endPos := by
  intro rem
  induction rem with
  | zero => intro pos h; rw [walkAux_zero] at h; simp at h
  | succ rem ih =>
    intro pos
    by_cases hpe : pos < endPos
    · cases hs : stepOpt bytes endPos pos with
      | bad k =>
        rw [walkAux_bad bytes endPos pos rem k hpe hs]
        intro _
        exact ⟨by simp, hpe⟩
      | good rec skip ws dn e o t =>
        cases dn with
        | true =>
          rw [walkAux_done bytes endPos pos rem rec skip ws e o t hpe hs]
          intro h
          simp at h
        | false =>
          rw [walkAux_cons bytes endPos pos rem rec skip ws e o t hpe hs]
          intro h
          have := ih (pos + skip) (by simpa using h)
          simp only [List.length_cons]
          exact ⟨by omega, this.2⟩
    · rw [walkAux_stop bytes endPos pos rem hpe]
      intro h
      simp at h

theorem walk_chain (bytes : List Nat) (endPos : Nat) :
    ∀ rem pos, chainFromB pos (walkAux bytes endPos pos rem).steps
      (walkAux bytes endPos pos rem).finalPos = true := by
  intro rem
  induction rem with
  | zero => intro pos; rw [walkAux_zero]; simp [chainFromB]
  | succ rem ih =>
    intro pos
    by_cases hpe : pos < endPos
    · cases hs : stepOpt bytes endPos pos with
      | bad k => rw [walkAux_bad bytes endPos pos rem k hpe hs]; simp [chainFromB]
      | good rec skip ws dn e o t =>
        cases dn with
        | true =>
          rw [walkAux_done bytes endPos pos rem rec skip ws e o t hpe hs]
          simp [chainFromB]
        | false =>
          rw [walkAux_cons bytes endPos pos rem rec skip ws e o t hpe hs]
          have := ih (pos + skip)
          simp [chainFromB, this]
    · rw [walkAux_stop bytes endPos pos rem hpe]; simp [chainFromB]

theorem walk_err_step (bytes : List Nat) (endPos : Nat) :
    ∀ rem pos k, (walkAux bytes endPos pos rem).err = some k →
      stepOpt bytes endPos (walkAux bytes endPos pos rem).finalPos = StepRes.bad k ∧
      (walkAux bytes endPos pos rem).evs.getLast? = some (errEv k) := by
  intro rem
  induction rem with
  | zero => intro pos k h; rw [walkAux_zero] at h; simp at h
  | succ rem ih =>
    intro pos k
    by_cases hpe : pos < endPos
    · cases hs : stepOpt bytes endPos pos with
      | bad k2 =>
        rw [walkAux_bad bytes endPos pos rem k2 hpe hs]
        intro h
        simp only [Option.some.injEq] at h
        subst h
        exact ⟨hs, rfl⟩
      | good rec skip ws dn e o t =>
        cases dn with
        | true =>
          rw [walkAux_done bytes endPos pos rem rec skip ws e o t hpe hs]
          intro h
          simp at h
        | false =>
          rw [walkAux_cons bytes endPos pos rem rec skip ws e o t hpe hs]
          intro h
          have hr := ih (pos + skip) k h
          refine ⟨hr.1, ?_⟩
          have hne : (walkAux bytes endPos (pos + skip) rem).evs ≠ [] := by
            intro hnil
            have h2 := hr.2
            rw [hnil] at h2
            simp at h2
          simp only []
          rw [List.getLast?_append_of_ne_nil _ hne]
          exact hr.2
    · rw [walkAux_stop bytes endPos pos rem hpe]
      intro h
      simp at h

theorem walk_evs_mem (bytes : List Nat) (endPos : Nat) :
    ∀ rem pos ev, ev ∈ (walkAux bytes endPos pos rem).evs →
      ev = Ev.TCPOPT_WSCALE_INVALID ∨ ev = Ev.TCPOPT_BADLEN ∨ ev = Ev.TCPOPT_TRUNCATED := by
  intro rem
  induction rem with
  | zero => intro pos ev h; rw [walkAux_zero] at h; simp at h
  | succ rem ih =>
    intro pos ev
    by_cases hpe : pos < endPos
    · cases hs : stepOpt bytes endPos pos with
      | bad k =>
        rw [walkAux_bad bytes endPos pos rem k hpe hs]
        intro h
        simp only [List.mem_singleton] at h
        subst h
        cases k
        · exact Or.inr (Or.inl rfl)
        · exact Or.inr (Or.inr rfl)
      | good rec skip ws dn e o t =>
        cases dn with
        | true =>
          rw [walkAux_done bytes endPos pos rem rec skip ws e o t hpe hs]
          intro h
          simp only [] at h
          split at h
          · simp only [List.mem_singleton] at h
            exact Or.inl h
          · simp at h
        | false =>
          rw [walkAux_cons bytes endPos pos rem rec skip ws e o t hpe hs]
          intro h
          simp only [] at h
          rcases List.mem_append.mp h with h1 | h1
          · split at h1
            · simp only [List.mem_singleton] at h1
              exact Or.inl h1
            · simp at h1
          · exact ih (pos + skip) ev h1
    · rw [walkAux_stop bytes endPos pos rem hpe]
      intro h
      simp at h

theorem walk_good (bytes : List Nat) (endPos : Nat) :
    ∀ rem pos i st rc,
      List.get? (walkAux bytes endPos pos rem).steps i = some st →
      List.get? (walkAux bytes endPos pos rem).opts i = some rc →
      ∃ ws dn e o t, stepOpt bytes endPos st.1 = StepRes.good rc st.2 ws dn e o t := by
  intro rem
  induction rem with
  | zero => intro pos i st rc h1 h2; rw [walkAux_zero] at h1; simp at h1
  | succ rem ih =>
    intro pos i st rc h1 h2
    by_cases hpe : pos < endPos
    · cases hs : stepOpt bytes endPos pos with
      | bad k =>
        rw [walkAux_bad bytes endPos pos rem k hpe hs] at h1
        simp at h1
      | good rec skip ws dn e o t =>
        cases dn with
        | true =>
          rw [walkAux_done bytes endPos pos rem rec skip ws e o t hpe hs] at h1 h2
          cases i with
          | zero =>
            simp only [List.get?_cons_zero, Option.some.injEq] at h1 h2
            subst h1
            subst h2
            exact ⟨ws, true, e, o, t, hs⟩
          | succ i => simp at h1
        | false =>
          rw [walkAux_cons bytes endPos pos rem rec skip ws e o t hpe hs] at h1 h2
          cases i with
          | zero =>
            simp only [List.get?_cons_zero, Option.some.injEq] at h1 h2
            subst h1
            subst h2
            exact ⟨ws, false, e, o, t, hs⟩
          | succ i =>
            simp only [List.get?_cons_succ] at h1 h2
            exact ih (pos + skip) i st rc h1 h2
    · rw [walkAux_stop bytes endPos pos rem hpe] at h1
      simp at h1

/-! ## Skip characterisation of a successful step -/

theorem mkStep_good {kind : Nat} {r : OptRes} {e o t : Bool} {rec : TcpOption} {skip : Nat}
    {ws dn e2 o2 t2 : Bool} (h : mkStep kind r e o t = StepRes.good rec skip ws dn e2 o2 t2) :
    ∃ pl pd, r = OptRes.ok pl pd skip := by
  cases r with
  | ok pl pd sk =>
    simp only [mkStep, StepRes.good.injEq] at h
    exact ⟨pl, pd, by rw [h.2.1]⟩
  | badLen => simp [mkStep] at h
  | trunc => simp [mkStep] at h

theorem sackStep_good {kind : Nat} {r : OptRes} {rec : TcpOption} {skip : Nat}
    {ws dn e2 o2 t2 : Bool} (h : sackStep kind r = StepRes.good rec skip ws dn e2 o2 t2) :
    ∃ pl pd, r = OptRes.ok pl pd skip := by
  cases r with
  | ok pl pd sk =>
    simp only [sackStep] at h
    split at h
    · simp at h
    · simp only [StepRes.good.injEq] at h
      exact ⟨pl, pd, by rw [h.2.1]⟩
  | badLen => simp [sackStep] at h
  | trunc => simp [sackStep] at h

theorem wscaleStep_good {bytes : List Nat} {pos kind : Nat} {r : OptRes} {rec : TcpOption}
    {skip : Nat} {ws dn e2 o2 t2 : Bool}
    (h : wscaleStep bytes pos kind r = StepRes.good rec skip ws dn e2 o2 t2) :
    ∃ pl pd, r = OptRes.ok pl pd skip := by
  cases r with
  | ok pl pd sk =>
    simp only [wscaleStep, StepRes.good.injEq] at h
    exact ⟨pl, pd, by rw [h.2.1]⟩
  | badLen => simp [wscaleStep] at h
  | trunc => simp [wscaleStep] at h

theorem stepOpt_good_skip {bytes : List Nat} {endPos pos : Nat} {rec : TcpOption}
    {skip : Nat} {ws dn e o t : Bool}
    (h : stepOpt bytes endPos pos = StepRes.good rec skip ws dn e o t) :
    ((byteAt bytes pos = 0 ∨ byteAt bytes pos = 1) → skip = 1) ∧
    (¬(byteAt bytes pos = 0 ∨ byteAt bytes pos = 1) →
      pos + 1 < endPos ∧ skip = byteAt bytes (pos + 1)) := by
  simp only [stepOpt] at h
  have hfin : ∀ (ex : Int) (pl : Nat) (pd : Option Nat),
      OptLenValidate pos endPos
        (if pos + 1 < endPos then some (byteAt bytes (pos + 1)) else none) ex =
        OptRes.ok pl pd skip →
      pos + 1 < endPos ∧ skip = byteAt bytes (pos + 1) := by
    intro ex pl pd hv
    have hlp := validate_ok_lenPtr hv
    by_cases hb : pos + 1 < endPos
    · rw [if_pos hb] at hlp
      simp only [Option.some.injEq] at hlp
      exact ⟨hb, hlp.symm⟩
    · rw [if_neg hb] at hlp
      simp at hlp
  by_cases h0 : byteAt bytes pos = 0
  · rw [if_pos h0] at h
    simp only [StepRes.good.injEq] at h
    exact ⟨fun _ => h.2.1.symm, fun hn => absurd (Or.inl h0) hn⟩
  · rw [if_neg h0] at h
    by_cases h1 : byteAt bytes pos = 1
    · rw [if_pos h1] at h
      simp only [StepRes.good.injEq] at h
      exact ⟨fun _ => h.2.1.symm, fun hn => absurd (Or.inr h1) hn⟩
    · rw [if_neg h1] at h
      have hno : ¬(byteAt bytes pos = 0 ∨ byteAt bytes pos = 1) := by tauto
      refine ⟨fun hc => absurd hc hno, fun _ => ?_⟩
      by_cases h29 : byteAt bytes pos = 29
      · rw [if_pos h29] at h
        by_cases hlt : lenPtrLt4
            (if pos + 1 < endPos then some (byteAt bytes (pos + 1)) else none) = true
        · rw [if_pos hlt] at h
          exact StepRes.noConfusion h
        · rw [if_neg hlt] at h
          obtain ⟨pl, pd, hv⟩ := mkStep_good h
          exact hfin (-1) pl pd hv
      · rw [if_neg h29] at h
        by_cases h5 : byteAt bytes pos = 5
        · rw [if_pos h5] at h
          obtain ⟨pl, pd, hv⟩ := sackStep_good h
          exact hfin (-1) pl pd hv
        · rw [if_neg h5] at h
          by_cases h3 : byteAt bytes pos = 3
          · rw [if_pos h3] at h
            obtain ⟨pl, pd, hv⟩ := wscaleStep_good h
            exact hfin 3 pl pd hv
          · rw [if_neg h3] at h
            obtain ⟨pl, pd, hv⟩ := mkStep_good h
            exact hfin (optExpected (byteAt bytes pos)) pl pd hv

/-! ## Wrapper equation and bounds -/

theorem DecodeTCPOptions_eq (bytes : List Nat) (o_len : Nat) (p : Packet)
    (h : o_len ≤ 40) :
    DecodeTCPOptions bytes o_len p =
      ({ p with
          tcp_options := (walkAux bytes o_len 0 40).opts,
          tcp_option_count := (walkAux bytes o_len 0 40).opts.length },
        (walkAux bytes o_len 0 40).evs ++
          (if (walkAux bytes o_len 0 40).err = none then
            doneEvents (walkAux bytes o_len 0 40).exper (walkAux bytes o_len 0 40).obsol
              (walkAux bytes o_len 0 40).ttcp
          else [])) := by
  unfold DecodeTCPOptions
  rw [if_neg (by omega)]

theorem hdrLen_le_60 (raw : List Nat) : hdrLen raw ≤ 60 := by
  simp only [hdrLen, byteAt]
  omega

/-- Claim C4: whenever the option walk stops on a validator error, the
walker emits `TCPOPT_BADLEN` for a bad-length verdict and
`TCPOPT_TRUNCATED` for a truncation verdict (as the last event of the
walk), sets the packet's option count to exactly the number of options
cleanly parsed before the offender, stores exactly those records, and
stops at the offending option: the successful steps chain from offset 0
to the stop position, each recorded option comes from a successful
validation at its step's position, and the step at the stop position is
the erroring one. -/
theorem tcp_C4_walker_error (bytes : List Nat) (o_len : Nat) (p : Packet) (k : ErrK)
    (hlen : o_len ≤ 40) (herr : (walkAux bytes o_len 0 40).err = some k) :
    ((DecodeTCPOptions bytes o_len p).2.getLast? =
      some (if k = ErrK.badLen then Ev.TCPOPT_BADLEN else Ev.TCPOPT_TRUNCATED)) ∧
    (DecodeTCPOptions bytes o_len p).1.tcp_option_count =
      (walkAux bytes o_len 0 40).steps.length ∧
    (DecodeTCPOptions bytes o_len p).1.tcp_options = (walkAux bytes o_len 0 40).opts ∧
    (walkAux bytes o_len 0 40).opts.length = (walkAux bytes o_len 0 40).steps.length ∧
    stepOpt bytes o_len (walkAux bytes o_len 0 40).finalPos = StepRes.bad k ∧
    chainFromB 0 (walkAux bytes o_len 0 40).steps (walkAux bytes o_len 0 40).finalPos = true ∧
    (∀ i st rc, List.get? (walkAux bytes o_len 0 40).steps i = some st →
      List.get? (walkAux bytes o_len 0 40).opts i = some rc →
      ∃ ws dn e o t, stepOpt bytes o_len st.1 = StepRes.good rc st.2 ws dn e o t) := by
  have hw := walk_err_step bytes o_len 40 0 k herr
  rw [DecodeTCPOptions_eq bytes o_len p hlen]
  refine ⟨?_, walk_opts_len bytes o_len 40 0, rfl, walk_opts_len bytes o_len 40 0,
    hw.1, walk_chain bytes o_len 40 0, fun i st rc h1 h2 => walk_good bytes o_len 40 0 i st rc h1 h2⟩
  have hnone : ¬ (walkAux bytes o_len 0 40).err = none := by rw [herr]; simp
  rw [if_neg hnone, List.append_nil, hw.2]
  cases k <;> rfl

theorem tcp_C4_walker_error_w :
    (DecodeTCPOptions [3, 2, 0] 3 pkt0).2.getLast? = some Ev.TCPOPT_BADLEN ∧
    (DecodeTCPOptions [3, 2, 0] 3 pkt0).1.tcp_option_count = 0 ∧
    (DecodeTCPOptions [3, 2, 0] 3 pkt0).1.tcp_options = [] := by
  have h := tcp_C4_walker_error [3, 2, 0] 3 pkt0 ErrK.badLen (by decide) (by decide)
  refine ⟨by simpa using h.1, ?_, ?_⟩
  · rw [h.2.1]; decide
  · rw [h.2.2.1]; decide

/-- Claim C9: on any option region of length at most 40 the walk loop
performs at most 40 iterations, and the option cursor advances by exactly
the skip reported by each successful validation: the successful steps
chain from offset 0 to the final cursor position, with skip 1 at an
EOL/NOP kind byte and skip equal to the stored length byte (the byte
after the kind) for every other successfully validated option. -/
theorem tcp_C9_walker_bound (bytes : List Nat) (o_len : Nat) (_hlen : o_len ≤ 40) :
    (walkAux bytes o_len 0 40).iters ≤ 40 ∧
    chainFromB 0 (walkAux bytes o_len 0 40).steps (walkAux bytes o_len 0 40).finalPos = true ∧
    (∀ ps ∈ (walkAux bytes o_len 0 40).steps,
      ((byteAt bytes ps.1 = 0 ∨ byteAt bytes ps.1 = 1) → ps.2 = 1) ∧
      (¬(byteAt bytes ps.1 = 0 ∨ byteAt bytes ps.1 = 1) →
        ps.2 = byteAt bytes (ps.1 + 1))) := by
  refine ⟨?_, walk_chain bytes o_len 40 0, ?_⟩
  · have h1 := walk_iters bytes o_len 40 0
    have h2 := walk_steps_le bytes o_len 40 0
    by_cases he : (walkAux bytes o_len 0 40).err.isSome = true
    · have h3 := (walk_err_lt bytes o_len 40 0 he).1
      rw [h1, if_pos he]
      omega
    · rw [h1, if_neg he]
      omega
  · intro ps hps
    obtain ⟨i, hi⟩ := List.mem_iff_get?.mp hps
    have hilen : i < (walkAux bytes o_len 0 40).opts.length := by
      rw [walk_opts_len bytes o_len 40 0]
      obtain ⟨hlt, _⟩ := List.get?_eq_some.mp hi
      exact hlt
    obtain ⟨rc, hrc⟩ : ∃ rc, List.get? (walkAux bytes o_len 0 40).opts i = some rc :=
      ⟨(walkAux bytes o_len 0 40).opts.get ⟨i, hilen⟩, List.get?_eq_get hilen⟩
    obtain ⟨ws, dn, e, o, t, hst⟩ := walk_good bytes o_len 40 0 i ps rc hi hrc
    have hsk := stepOpt_good_skip hst
    exact ⟨hsk.1, fun hn => (hsk.2 hn).2⟩

theorem tcp_C9_walker_bound_w :
    (walkAux [3, 3, 15, 0] 4 0 40).iters ≤ 40 ∧
    chainFromB 0 (walkAux [3, 3, 15, 0] 4 0 40).steps
      (walkAux [3, 3, 15, 0] 4 0 40).finalPos = true := by
  have h := tcp_C9_walker_bound [3, 3, 15, 0] 4 (by decide)
  exact ⟨h.1, h.2.1⟩

/-! ## Decode-side helper lemmas -/

theorem DecodeTCPOptions_evs_mem (bytes : List Nat) (o_len : Nat) (p : Packet) (ev : Ev)
    (h : ev ∈ (DecodeTCPOptions bytes o_len p).2) :
    ev = Ev.TCPOPT_WSCALE_INVALID ∨ ev = Ev.TCPOPT_BADLEN ∨ ev = Ev.TCPOPT_TRUNCATED ∨
    ev = Ev.TCPOPT_EXPERIMENTAL ∨ ev = Ev.TCPOPT_OBSOLETE ∨ ev = Ev.TCPOPT_TTCP := by
  by_cases h40 : o_len ≤ 40
  · rw [DecodeTCPOptions_eq bytes o_len p h40] at h
    rcases List.mem_append.mp h with h1 | h1
    · have := walk_evs_mem bytes o_len 40 0 ev h1
      tauto
    · split at h1
      · unfold doneEvents at h1
        split_ifs at h1 <;> simp at h1 <;> tauto
      · simp at h1
  · unfold DecodeTCPOptions at h
    rw [if_pos (by omega)] at h
    simp at h

theorem decodeRest_ok (raw : List Nat) (env : DecodeEnv) (p : Packet) (ll : Nat)
    (drop : Bool) : (decodeRest raw env p ll drop).ok = true := rfl

theorem decodeRest_drop (raw : List Nat) (env : DecodeEnv) (p : Packet) (ll : Nat)
    (drop : Bool) : (decodeRest raw env p ll drop).activeDrop = drop := rfl

theorem decodeRest_opt (raw : List Nat) (env : DecodeEnv) (p : Packet) (ll : Nat)
    (drop : Bool) : (decodeRest raw env p ll drop).optRegionLen =
      (if 0 < hdrLen raw - 20 then some (hdrLen raw - 20) else none) := rfl

theorem decodeRest_tcph (raw : List Nat) (env : DecodeEnv) (p : Packet) (ll : Nat)
    (drop : Bool) : (decodeRest raw env p ll drop).p.tcph = p.tcph := by
  have h40 : hdrLen raw - 20 ≤ 40 := by have := hdrLen_le_60 raw; omega
  simp only [decodeRest]
  split
  · rw [DecodeTCPOptions_eq _ _ _ h40]
  · rfl

theorem decodeRest_errCk (raw : List Nat) (env : DecodeEnv) (p : Packet) (ll : Nat)
    (drop : Bool) : (decodeRest raw env p ll drop).p.errCksumTcp = p.errCksumTcp := by
  have h40 : hdrLen raw - 20 ≤ 40 := by have := hdrLen_le_60 raw; omega
  simp only [decodeRest]
  split
  · rw [DecodeTCPOptions_eq _ _ _ h40]
  · rfl

theorem flagClass_naptha (seqv : Nat) (env : DecodeEnv) (tset : Bool) :
    (Ev.DOS_NAPTHA ∈ (flagClassEvents 2 seqv env tset).map Prod.fst ↔
      (seqv = 6060842 ∧ env.ipId = 413)) := by
  by_cases h1 : seqv = 6060842 ∧ env.ipId = 413
  · by_cases hm : env.dstInMulticast
    · simp +decide [flagClassEvents, h1, hm]
    · simp +decide [flagClassEvents, h1, hm]
  · by_cases hm : env.dstInMulticast
    · simp +decide [flagClassEvents, h1, hm]
    · simp +decide [flagClassEvents, h1, hm]

theorem mem_ite_elim {α : Type} {c : Prop} [Decidable c] {x : α} {a b : List α}
    (h : x ∈ (if c then a else b)) : x ∈ a ∨ x ∈ b := by
  by_cases hc : c
  · rw [if_pos hc] at h; exact Or.inl h
  · rw [if_neg hc] at h; exact Or.inr h

theorem decodeRest_naptha (raw : List Nat) (env : DecodeEnv) (p : Packet) (ll : Nat)
    (drop : Bool) (hfl : th_flags raw = 2) :
    (Ev.DOS_NAPTHA ∈ (decodeRest raw env p ll drop).events.map Prod.fst ↔
      (th_seq raw = 6060842 ∧ env.ipId = 413)) := by
  simp only [decodeRest, hfl]
  simp only [List.map_append, List.mem_append]
  constructor
  · rintro (((h1 | h2) | h3) | (h4 | h5))
    · exact (flagClass_naptha (th_seq raw) env _).mp h1
    · exfalso
      rw [List.map_map] at h2
      have h2b := h2
      simp only [List.map_id_fun'] at h2b
      have h2c : Ev.DOS_NAPTHA ∈
          (if 0 < hdrLen raw - 20 then
            DecodeTCPOptions (raw.drop 20) (hdrLen raw - 20)
              { p with sp := be16 raw 0, dp := be16 raw 2 }
          else ({ { p with sp := be16 raw 0, dp := be16 raw 2 } with
                  tcp_option_count := 0 }, ([] : List Ev))).2 := by
        simpa using h2
      rw [apply_ite Prod.snd] at h2c
      rcases mem_ite_elim (x := Ev.DOS_NAPTHA) h2c with h | h
      · rcases DecodeTCPOptions_evs_mem _ _ _ _ h with hx | hx | hx | hx | hx | hx <;>
          exact Ev.noConfusion hx
      · simp at h
    · exfalso
      rw [apply_ite (List.map Prod.fst)] at h3
      rcases mem_ite_elim h3 with h | h <;> simp at h
    · exfalso
      rw [apply_ite (List.map Prod.fst)] at h4
      rcases mem_ite_elim h4 with h | h <;> simp at h
    · exfalso
      rw [apply_ite (List.map Prod.fst)] at h5
      rcases mem_ite_elim h5 with h | h <;> simp at h
  · intro hc
    exact Or.inl (Or.inl (Or.inl ((flagClass_naptha (th_seq raw) env _).mpr hc)))

/-! ## Claims about the decoder -/

/-- Claim C1: the three header guards of `decode`, read in the code's
guard order (each later guard applies to inputs that passed the earlier
ones): a raw length below 20 emits `DGRAM_LT_TCPHDR`, clears `tcph` and
fails; past that, `data_offset*4 < 20` emits `INVALID_OFFSET`, clears and
fails; past that, `data_offset*4 > raw_len` emits `LARGE_OFFSET`, clears
and fails.  (`hdrLen raw` is `data_offset * 4`.) -/
theorem tcp_C1_header_guards (raw : List Nat) (env : DecodeEnv) (p0 : Packet) :
    (raw.length < 20 →
      (decode raw env p0).events.map Prod.fst = [Ev.DGRAM_LT_TCPHDR] ∧
      (decode raw env p0).p.tcph = none ∧ (decode raw env p0).ok = false) ∧
    (20 ≤ raw.length → hdrLen raw < 20 →
      (decode raw env p0).events.map Prod.fst = [Ev.INVALID_OFFSET] ∧
      (decode raw env p0).p.tcph = none ∧ (decode raw env p0).ok = false) ∧
    (20 ≤ raw.length → raw.length < hdrLen raw →
      (decode raw env p0).events.map Prod.fst = [Ev.LARGE_OFFSET] ∧
      (decode raw env p0).p.tcph = none ∧ (decode raw env p0).ok = false) := by
  refine ⟨?_, ?_, ?_⟩
  · intro h
    unfold decode
    rw [if_pos h]
    exact ⟨rfl, rfl, rfl⟩
  · intro h1 h2
    unfold decode
    rw [if_neg (by omega), if_pos h2]
    exact ⟨rfl, rfl, rfl⟩
  · intro h1 h2
    unfold decode
    rw [if_neg (by omega), if_neg (by omega), if_pos h2]
    exact ⟨rfl, rfl, rfl⟩

theorem tcp_C1_header_guards_w :
    ((decode [0, 0, 0, 80] env0 pkt0).events.map Prod.fst = [Ev.DGRAM_LT_TCPHDR] ∧
      (decode [0, 0, 0, 80] env0 pkt0).p.tcph = none) ∧
    ((decode [156, 64, 0, 80, 0, 0, 0, 1, 0, 0, 0, 10, 64, 2, 32, 0, 0, 0, 0, 1]
        env0 pkt0).events.map Prod.fst = [Ev.INVALID_OFFSET]) ∧
    ((decode [156, 64, 0, 80, 0, 0, 0, 1, 0, 0, 0, 10, 96, 2, 32, 0, 0, 0, 0, 2]
        env0 pkt0).events.map Prod.fst = [Ev.LARGE_OFFSET]) := by
  refine ⟨?_, ?_, ?_⟩
  · have h := (tcp_C1_header_guards [0, 0, 0, 80] env0 pkt0).1 (by decide)
    exact ⟨h.1, h.2.1⟩
  · exact ((tcp_C1_header_guards
      [156, 64, 0, 80, 0, 0, 0, 1, 0, 0, 0, 10, 64, 2, 32, 0, 0, 0, 0, 1] env0 pkt0).2.1
      (by decide) (by decide)).1
  · exact ((tcp_C1_header_guards
      [156, 64, 0, 80, 0, 0, 0, 1, 0, 0, 0, 10, 96, 2, 32, 0, 0, 0, 0, 2] env0 pkt0).2.2
      (by decide) (by decide)).1

/-- Claim C2: with checksum verification enabled and a nonzero computed
checksum, `decode` with the `unsure_encap` flag set clears `tcph` and
fails silently — no event, no `PKT_ERR_CKSUM_TCP`, no drop request —
while without the flag it sets `PKT_ERR_CKSUM_TCP`, requests an active
drop exactly when inline mode and the TCP-checksum-drop policy are both
on, and continues decoding to a successful return. -/
theorem tcp_C2_checksum_paths (raw : List Nat) (env : DecodeEnv) (p0 : Packet)
    (h1 : 20 ≤ raw.length) (h2 : 20 ≤ hdrLen raw) (h3 : hdrLen raw ≤ raw.length)
    (hck : env.tcpChecksums = true) (hcs : env.csum ≠ 0) :
    (p0.unsureEncap = true →
      (decode raw env p0).ok = false ∧ (decode raw env p0).p.tcph = none ∧
      (decode raw env p0).events = [] ∧
      (decode raw env p0).p.errCksumTcp = p0.errCksumTcp ∧
      (decode raw env p0).activeDrop = false) ∧
    (p0.unsureEncap = false →
      (decode raw env p0).ok = true ∧
      (decode raw env p0).p.errCksumTcp = true ∧
      (decode raw env p0).activeDrop = (env.inlineMode && env.tcpChecksumDrops)) := by
  unfold decode
  rw [if_neg (by omega), if_neg (by omega), if_neg (by omega), if_pos hck, if_pos hcs]
  constructor
  · intro hu
    rw [if_pos (by simpa using hu)]
    exact ⟨rfl, rfl, rfl, rfl, rfl⟩
  · intro hu
    rw [if_neg (by simpa using hu)]
    refine ⟨decodeRest_ok _ _ _ _ _, ?_, decodeRest_drop _ _ _ _ _⟩
    rw [decodeRest_errCk]

theorem tcp_C2_checksum_paths_w :
    ((decode rawS1 envCk7 pktUE).ok = false ∧
      (decode rawS1 envCk7 pktUE).events = []) ∧
    ((decode rawS1 envCk7 pkt0).ok = true ∧
      (decode rawS1 envCk7 pkt0).p.errCksumTcp = true ∧
      (decode rawS1 envCk7 pkt0).activeDrop = true) := by
  constructor
  · have h := (tcp_C2_checksum_paths rawS1 envCk7 pktUE
      (by decide) (by decide) (by decide) (by decide) (by decide)).1 (by decide)
    exact ⟨h.1, h.2.2.1⟩
  · have h := (tcp_C2_checksum_paths rawS1 envCk7 pkt0
      (by decide) (by decide) (by decide) (by decide) (by decide)).2 (by decide)
    exact ⟨h.1, h.2.1, by rw [h.2.2]; decide⟩

/-- Claim C6: on a successfully decoded segment whose flags are exactly
SYN, `decode` emits `DOS_NAPTHA` if and only if the sequence-number field
equals 6060842 and the IP layer's id equals 413; a pure-SYN segment
violating either condition does not raise `DOS_NAPTHA`. -/
theorem tcp_C6_naptha (raw : List Nat) (env : DecodeEnv) (p0 : Packet)
    (h1 : 20 ≤ raw.length) (h2 : 20 ≤ hdrLen raw) (h3 : hdrLen raw ≤ raw.length)
    (hsilent : ¬(env.tcpChecksums = true ∧ env.csum ≠ 0 ∧ p0.unsureEncap = true))
    (hfl : th_flags raw = 2) :
    (decode raw env p0).ok = true ∧
    (Ev.DOS_NAPTHA ∈ (decode raw env p0).events.map Prod.fst ↔
      (th_seq raw = 6060842 ∧ env.ipId = 413)) := by
  unfold decode
  rw [if_neg (by omega), if_neg (by omega), if_neg (by omega)]
  by_cases hck : env.tcpChecksums = true
  · rw [if_pos hck]
    by_cases hcs : env.csum ≠ 0
    · rw [if_pos hcs]
      have hu : ¬ ({ p0 with tcph := some raw } : Packet).unsureEncap = true := by
        intro hx
        exact hsilent ⟨hck, hcs, by simpa using hx⟩
      rw [if_neg hu]
      exact ⟨decodeRest_ok _ _ _ _ _, decodeRest_naptha _ _ _ _ _ hfl⟩
    · rw [if_neg hcs]
      exact ⟨decodeRest_ok _ _ _ _ _, decodeRest_naptha _ _ _ _ _ hfl⟩
  · rw [if_neg hck]
    exact ⟨decodeRest_ok _ _ _ _ _, decodeRest_naptha _ _ _ _ _ hfl⟩

theorem tcp_C6_naptha_w :
    (decode rawNap envId413 pkt0).ok = true ∧
    Ev.DOS_NAPTHA ∈ (decode rawNap envId413 pkt0).events.map Prod.fst ∧
    ¬ Ev.DOS_NAPTHA ∈ (decode rawNap env0 pkt0).events.map Prod.fst := by
  have h := tcp_C6_naptha rawNap envId413 pkt0
    (by decide) (by decide) (by decide) (by decide) (by decide)
  have h2 := tcp_C6_naptha rawNap env0 pkt0
    (by decide) (by decide) (by decide) (by decide) (by decide)
  refine ⟨h.1, h.2.mpr (by decide), fun hc => ?_⟩
  have := h2.2.mp hc
  revert this
  decide

/-- Counterexample to claim C8 as stated: on the invalid-offset fatal
path the decoder emits `INVALID_OFFSET` while `p->tcph` is still set
(the recorded emission-time flag is `true`), so the TCP reference is
cleared only after the event is emitted, not before. -/
theorem tcp_C8_clear_order_cex :
    (decode [156, 64, 0, 80, 0, 0, 0, 1, 0, 0, 0, 10, 64, 2, 32, 0, 0, 0, 0, 9]
        env0 pkt0).ok = false ∧
    (decode [156, 64, 0, 80, 0, 0, 0, 1, 0, 0, 0, 10, 64, 2, 32, 0, 0, 0, 0, 9]
        env0 pkt0).p.tcph = none ∧
    (decode [156, 64, 0, 80, 0, 0, 0, 1, 0, 0, 0, 10, 64, 2, 32, 0, 0, 0, 0, 9]
        env0 pkt0).events = [(Ev.INVALID_OFFSET, true)] := by
  decide

/-- Claim C8, amended: on every decode-fatal path the TCP header
reference is cleared before `decode` returns failure; but the fatal
events are emitted before the clearing, not after — on the invalid- and
large-offset paths the event carries emission-time flag `true` (reference
still set), on the short-header path the reference is still in its
pre-decode state at emission, and the unsure-encap checksum path emits no
event at all. -/
theorem tcp_C8_clear_order_amended (raw : List Nat) (env : DecodeEnv) (p0 : Packet) :
    ((decode raw env p0).ok = false → (decode raw env p0).p.tcph = none) ∧
    (raw.length < 20 →
      (decode raw env p0).events = [(Ev.DGRAM_LT_TCPHDR, p0.tcph.isSome)]) ∧
    (20 ≤ raw.length → hdrLen raw < 20 →
      (decode raw env p0).events = [(Ev.INVALID_OFFSET, true)]) ∧
    (20 ≤ raw.length → 20 ≤ hdrLen raw → raw.length < hdrLen raw →
      (decode raw env p0).events = [(Ev.LARGE_OFFSET, true)]) ∧
    (20 ≤ raw.length → 20 ≤ hdrLen raw → hdrLen raw ≤ raw.length →
      env.tcpChecksums = true → env.csum ≠ 0 → p0.unsureEncap = true →
      (decode raw env p0).events = []) := by
  refine ⟨?_, ?_, ?_, ?_, ?_⟩
  · intro hf
    unfold decode at hf ⊢
    by_cases g1 : raw.length < 20
    · rw [if_pos g1] at hf ⊢
    · rw [if_neg g1] at hf ⊢
      by_cases g2 : hdrLen raw < 20
      · rw [if_pos g2] at hf ⊢
      · rw [if_neg g2] at hf ⊢
        by_cases g3 : raw.length < hdrLen raw
        · rw [if_pos g3] at hf ⊢
        · rw [if_neg g3] at hf ⊢
          by_cases g4 : env.tcpChecksums = true
          · rw [if_pos g4] at hf ⊢
            by_cases g5 : env.csum ≠ 0
            · rw [if_pos g5] at hf ⊢
              by_cases g6 : ({ p0 with tcph := some raw } : Packet).unsureEncap = true
              · rw [if_pos g6] at hf ⊢
              · rw [if_neg g6] at hf ⊢
                rw [decodeRest_ok] at hf
                exact absurd hf (by decide)
            · rw [if_neg g5] at hf ⊢
              rw [decodeRest_ok] at hf
              exact absurd hf (by decide)
          · rw [if_neg g4] at hf ⊢
            rw [decodeRest_ok] at hf
            exact absurd hf (by decide)
  · intro g1
    unfold decode
    rw [if_pos g1]
  · intro g1 g2
    unfold decode
    rw [if_neg (by omega), if_pos g2]
    rfl
  · intro g1 g2 g3
    unfold decode
    rw [if_neg (by omega), if_neg (by omega), if_pos g3]
    rfl
  · intro g1 g2 g3 g4 g5 g6
    unfold decode
    rw [if_neg (by omega), if_neg (by omega), if_neg (by omega), if_pos g4, if_pos g5,
      if_pos (by simpa using g6)]

theorem tcp_C8_clear_order_amended_w :
    (decode rawS1 envCk7 pktUE).p.tcph = none ∧
    (decode rawS1 envCk7 pktUE).events = [] := by
  have h := tcp_C8_clear_order_amended rawS1 envCk7 pktUE
  exact ⟨h.1 (by decide),
    h.2.2.2.2 (by decide) (by decide) (by decide) (by decide) (by decide) (by decide)⟩

/-- Claim C10: whenever `decode` invokes the option walker, the region
length it passes equals `data_offset*4 - 20` and lies in `[1, 40]`
(`hdrLen raw` is at most 60 because the data offset is a 4-bit field), so
the walker's defensive branch — the only place that could null the TCP
reference after the guards — is unreachable from `decode`; consequently a
successful decode leaves the packet's TCP reference set to the borrowed
header. -/
theorem tcp_C10_region_safe (raw : List Nat) (env : DecodeEnv) (p0 : Packet) :
    (∀ L, (decode raw env p0).optRegionLen = some L →
      L = hdrLen raw - 20 ∧ 1 ≤ L ∧ L ≤ 40) ∧
    ((decode raw env p0).ok = true → (decode raw env p0).p.tcph = some raw) := by
  have h60 := hdrLen_le_60 raw
  unfold decode
  by_cases g1 : raw.length < 20
  · rw [if_pos g1]
    exact ⟨fun L hL => by simp at hL, fun hok => by simp at hok⟩
  · rw [if_neg g1]
    by_cases g2 : hdrLen raw < 20
    · rw [if_pos g2]
      exact ⟨fun L hL => by simp at hL, fun hok => by simp at hok⟩
    · rw [if_neg g2]
      by_cases g3 : raw.length < hdrLen raw
      · rw [if_pos g3]
        exact ⟨fun L hL => by simp at hL, fun hok => by simp at hok⟩
      · rw [if_neg g3]
        have hrest : ∀ (p : Packet) (drop : Bool), p.tcph = some raw →
            (∀ L, (decodeRest raw env p (hdrLen raw) drop).optRegionLen = some L →
              L = hdrLen raw - 20 ∧ 1 ≤ L ∧ L ≤ 40) ∧
            ((decodeRest raw env p (hdrLen raw) drop).ok = true →
              (decodeRest raw env p (hdrLen raw) drop).p.tcph = some raw) := by
          intro p drop hp
          constructor
          · intro L hL
            rw [decodeRest_opt] at hL
            by_cases hpos : 0 < hdrLen raw - 20
            · rw [if_pos hpos] at hL
              simp only [Option.some.injEq] at hL
              omega
            · rw [if_neg hpos] at hL
              exact absurd hL (by simp)
          · intro _
            rw [decodeRest_tcph, hp]
        by_cases g4 : env.tcpChecksums = true
        · rw [if_pos g4]
          by_cases g5 : env.csum ≠ 0
          · rw [if_pos g5]
            by_cases g6 : ({ p0 with tcph := some raw } : Packet).unsureEncap = true
            · rw [if_pos g6]
              exact ⟨fun L hL => by simp at hL, fun hok => by simp at hok⟩
            · rw [if_neg g6]
              exact hrest _ _ rfl
          · rw [if_neg g5]
            exact hrest _ _ rfl
        · rw [if_neg g4]
          exact hrest _ _ rfl

theorem tcp_C10_region_safe_w :
    (decode [156, 64, 0, 80, 0, 0, 0, 1, 0, 0, 0, 10, 96, 2, 32, 0, 1, 1, 1, 1, 1, 1, 1, 1]
        env0 pkt0).p.tcph =
      some [156, 64, 0, 80, 0, 0, 0, 1, 0, 0, 0, 10, 96, 2, 32, 0, 1, 1, 1, 1, 1, 1, 1, 1] ∧
    (1 ≤ 4 ∧ 4 ≤ 40) := by
  have h := tcp_C10_region_safe
    [156, 64, 0, 80, 0, 0, 0, 1, 0, 0, 0, 10, 96, 2, 32, 0, 1, 1, 1, 1, 1, 1, 1, 1] env0 pkt0
  exact ⟨h.2 (by decide), ((h.1 4 (by decide)).2.1), ((h.1 4 (by decide)).2.2)⟩

theorem encode_some {enc : EncIn} {rawIn : List Nat} {ho : OutHdr}
    (h : encode enc rawIn = some ho) : ho = encodeHdr enc rawIn := by
  have halt : encode enc rawIn = none ∨ encode enc rawIn = some (encodeHdr enc rawIn) := by
    simp only [encode]
    split_ifs <;> first | exact Or.inl rfl | exact Or.inr rfl
  rcases halt with hn | hs
  · rw [hn] at h
    exact Option.noConfusion h
  · rw [hs] at h
    simp only [Option.some.injEq] at h
    exact h.symm

/-- Counterexample to claim C5 as stated: the claim omits the
`ENC_FLAG_SEQ` adjustment.  A reverse encode whose state carries a SEQ
delta of 1 produces `seq = original_ack + 1`, not `original_ack`
(`th_ack rawS1 = 10`, output seq is 11). -/
theorem tcp_C5_encode_cex :
    (encode encRevSeq1 rawS1).isSome = true ∧
    (encode encRevSeq1 rawS1).map OutHdr.seq = some 11 ∧
    th_ack rawS1 = 10 := by
  decide

/-- Claim C5, amended: provided the `ENC_FLAG_SEQ` delta flag is clear
(when set, the delta is additionally added to seq modulo 2^32): a
forward encode copies the ports, sets `ack = original_ack` and
`seq = original_seq` in inline interface mode and
`seq = original_seq + dsize + (1 if SYN set in the original flags) mod
2^32` otherwise; a reverse encode swaps the ports, sets
`seq = original_ack` and `ack = original_seq + dsize + ctl mod 2^32`;
and a RST-type encode writes flags RST|ACK (0x14), data offset 5, and
window and urgent pointer zero. -/
theorem tcp_C5_encode_amended (enc : EncIn) (rawIn : List Nat) (ho : OutHdr)
    (henc : encode enc rawIn = some ho) :
    (enc.fwd = true →
      ho.sport = be16 rawIn 0 ∧ ho.dport = be16 rawIn 2 ∧ ho.ack = th_ack rawIn ∧
      (enc.seqFlag = false → enc.daqInline = true → ho.seq = th_seq rawIn) ∧
      (enc.seqFlag = false → enc.daqInline = false →
        ho.seq = (th_seq rawIn + enc.dsize + ctlOf rawIn) % 4294967296)) ∧
    (enc.fwd = false →
      ho.sport = be16 rawIn 2 ∧ ho.dport = be16 rawIn 0 ∧
      (enc.seqFlag = false → ho.seq = th_ack rawIn) ∧
      ho.ack = (th_seq rawIn + enc.dsize + ctlOf rawIn) % 4294967296) ∧
    (enc.etype = EncType.rst → ho.flags = 20 ∧ ho.off = 5 ∧ ho.win = 0 ∧ ho.urp = 0) := by
  have he := encode_some henc
  subst he
  refine ⟨?_, ?_, ?_⟩
  · intro hfwd
    refine ⟨by simp [encodeHdr, hfwd], by simp [encodeHdr, hfwd],
      by simp [encodeHdr, hfwd], ?_, ?_⟩
    · intro hsf hin
      simp [encodeHdr, hfwd, hsf, hin]
    · intro hsf hin
      simp [encodeHdr, hfwd, hsf, hin]
  · intro hfwd
    refine ⟨by simp [encodeHdr, hfwd], by simp [encodeHdr, hfwd], ?_,
      by simp [encodeHdr, hfwd]⟩
    intro hsf
    simp [encodeHdr, hfwd, hsf]
  · intro hty
    have hat : ¬(enc.etype = EncType.fin ∨ enc.etype = EncType.push) := by
      rw [hty]
      rintro (h | h) <;> exact EncType.noConfusion h
    exact ⟨by simp [encodeHdr, hat], by simp [encodeHdr], by simp [encodeHdr, hat],
      by simp [encodeHdr]⟩

theorem tcp_C5_encode_amended_w :
    ∃ ho, encode encRev rawS1 = some ho ∧ ho.sport = 80 ∧ ho.dport = 40000 ∧
      ho.seq = 10 ∧ ho.ack = 2 ∧ ho.flags = 20 ∧ ho.off = 5 ∧ ho.win = 0 ∧ ho.urp = 0 := by
  refine ⟨{ sport := 80, dport := 40000, seq := 10, ack := 2, off := 5, flags := 20, win := 0, urp := 0, sum := 0 }, by decide, ?_⟩
  have h := tcp_C5_encode_amended encRev rawS1
    { sport := 80, dport := 40000, seq := 10, ack := 2, off := 5, flags := 20, win := 0, urp := 0, sum := 0 } (by decide)
  have h2 := h.2.1 (by decide)
  have h3 := h.2.2 (by decide)
  exact ⟨by rw [h2.1]; decide, by rw [h2.2.1]; decide, by rw [h2.2.2.1 (by decide)]; decide,
    by rw [h2.2.2.2]; decide, h3.1, h3.2.1, h3.2.2.1, h3.2.2.2⟩
